import Mathlib

/-!
# face-detector API: file helpers, upload controller, metadata lookup, token middleware

A shallow embedding of the Go sources under `go-api/` together with the parts of the
Go standard library they call (`unicode/utf8`, `strings`, `path/filepath`, `regexp`).

Conventions of the embedding

* A Go `string` is an immutable byte sequence: `GoString := List Nat`, every element a
  byte value `0..255`.  Nothing requires the bytes to be valid UTF-8.
* A `rune` is a natural number (Go decodes only `0..0x10FFFF`).
* Bit operations of the Go sources are written arithmetically
  (`x & 0x3F` is `x % 64`, `x >> 6` is `x / 64`, `a<<6 | b` is `a * 64 + b` for `b < 64`).
* `path/filepath` is the Unix flavour (separator `/`, no volume names).
-/

namespace FaceDetector

/-- A Go string: a sequence of bytes. -/
abbrev GoString := List Nat

/-! ## unicode/utf8 -/

namespace utf8

/-- The "error" rune U+FFFD produced for every byte that is not part of a valid encoding. -/
def RuneError : Nat := 0xFFFD

/-- Characters below `RuneSelf` are represented as themselves in a single byte. -/
def RuneSelf : Nat := 0x80

/-- Maximum valid Unicode code point. -/
def MaxRune : Nat := 0x10FFFF

/-- The table `first` of `unicode/utf8`: information about the first byte of an encoding.
`0xF0` (`as`) is ASCII, `0xF1` (`xx`) is invalid, otherwise the low three bits are the
size and the high four bits index `acceptRanges`. -/
def first (b : Nat) : Nat :=
  if b < 0x80 then 0xF0
  else if b < 0xC2 then 0xF1
  else if b < 0xE0 then 0x02
  else if b = 0xE0 then 0x13
  else if b < 0xED then 0x03
  else if b = 0xED then 0x23
  else if b < 0xF0 then 0x03
  else if b = 0xF0 then 0x34
  else if b < 0xF4 then 0x04
  else if b = 0xF4 then 0x44
  else 0xF1

/-- The table `acceptRanges` of `unicode/utf8`: the accepted range of the second byte. -/
def acceptRanges (i : Nat) : Nat × Nat :=
  match i with
  | 0 => (0x80, 0xBF)
  | 1 => (0xA0, 0xBF)
  | 2 => (0x80, 0x9F)
  | 3 => (0x90, 0xBF)
  | 4 => (0x80, 0x8F)
  | _ => (0, 0)

/-- Go's `utf8.DecodeRuneInString`: the first rune of `s` and its width in bytes.
An empty string gives `(RuneError, 0)`, an invalid encoding `(RuneError, 1)`. -/
def DecodeRuneInString (s : GoString) : Nat × Nat :=
  match s with
  | [] => (RuneError, 0)
  | s0 :: t0 =>
    let x := first s0
    if x ≥ 0xF0 then
      (if x = 0xF0 then s0 else RuneError, 1)
    else
      let sz := x % 8
      let accept := acceptRanges (x / 16)
      if s.length < sz then (RuneError, 1)
      else
        match t0 with
        | [] => (RuneError, 1)
        | s1 :: t1 =>
          if s1 < accept.1 ∨ accept.2 < s1 then (RuneError, 1)
          else if sz ≤ 2 then ((s0 % 32) * 64 + s1 % 64, 2)
          else
            match t1 with
            | [] => (RuneError, 1)
            | s2 :: t2 =>
              if s2 < 0x80 ∨ 0xBF < s2 then (RuneError, 1)
              else if sz ≤ 3 then ((s0 % 16) * 4096 + (s1 % 64) * 64 + s2 % 64, 3)
              else
                match t2 with
                | [] => (RuneError, 1)
                | s3 :: _ =>
                  if s3 < 0x80 ∨ 0xBF < s3 then (RuneError, 1)
                  else ((s0 % 8) * 262144 + (s1 % 64) * 4096 + (s2 % 64) * 64 + s3 % 64, 4)

/-- Go's `utf8.AppendRune` on an empty buffer: the UTF-8 encoding of `r`.
Surrogates and values above `MaxRune` are encoded as `RuneError`. -/
def EncodeRune (r : Nat) : GoString :=
  if r < 0x80 then [r]
  else if r < 0x800 then [0xC0 + r / 64, 0x80 + r % 64]
  else if r > MaxRune ∨ (0xD800 ≤ r ∧ r ≤ 0xDFFF) then [0xEF, 0xBF, 0xBD]
  else if r < 0x10000 then [0xE0 + r / 4096, 0x80 + (r / 64) % 64, 0x80 + r % 64]
  else [0xF0 + r / 262144, 0x80 + (r / 4096) % 64, 0x80 + (r / 64) % 64, 0x80 + r % 64]

end utf8

/-- One step of a `for i, c := range s` loop: the decoded rune and the bytes it came from. -/
structure RuneAt where
  rune : Nat
  bytes : GoString
deriving DecidableEq, Repr

/-- The iteration `for _, c := range s` (also the input stepping of `regexp`): the runes of
`s` in order, each decoded by `DecodeRuneInString` at the current position; the position
then advances by the width.  `skip` is the number of bytes of the rune decoded last that
still have to be passed over (the width is at least 1 on a non-empty string). -/
def decodeFrom : Nat → GoString → List RuneAt
  | _, [] => []
  | 0, b :: t =>
    let d := utf8.DecodeRuneInString (b :: t)
    ⟨d.1, (b :: t).take d.2⟩ :: decodeFrom (d.2 - 1) t
  | k + 1, _ :: t => decodeFrom k t

/-- The runes of a Go string, as `range` and `regexp` see them. -/
def decode (s : GoString) : List RuneAt := decodeFrom 0 s

/-- The runes of a Go string (the "characters" of the string). -/
def runes (s : GoString) : List Nat := (decode s).map RuneAt.rune

/-- A Go string literal: the UTF-8 encoding of the literal's code points. -/
def goString (s : String) : GoString := s.data.flatMap fun c => utf8.EncodeRune c.toNat

/-! ## regexp -/

namespace regexp

/-- A character class `[...]` or `[^...]`: inclusive rune ranges, possibly negated. -/
structure CharClass where
  negated : Bool
  ranges : List (Nat × Nat)

/-- Whether rune `r` belongs to the class. -/
def CharClass.matchRune (c : CharClass) (r : Nat) : Bool :=
  (c.ranges.any fun p => decide (p.1 ≤ r) && decide (r ≤ p.2)) != c.negated

/-- The pieces of the patterns used by this program. -/
inductive Inst where
  /-- `^` (no multi-line flag): beginning of the text. -/
  | beginText
  /-- `$` (no multi-line flag): end of the text. -/
  | endText
  /-- `[...]`: exactly one rune of the class. -/
  | cls (c : CharClass)
  /-- `[...]+`: one or more runes of the class, as many as possible first. -/
  | plus (c : CharClass)

/-- A compiled pattern: a concatenation of pieces. -/
abbrev Regexp := List Inst

/-- Greedy repetition: consume runes of the class `c` and then continue with `k`,
preferring the longest repetition; gives the number of runes consumed. -/
def plusLoop (c : CharClass) (k : List RuneAt → Option Nat) : List RuneAt → Option Nat
  | [] => none
  | x :: t =>
    if c.matchRune x.rune then
      match plusLoop c k t with
      | some n => some (n + 1)
      | none => (k t).map (· + 1)
    else none

/-- Match the pattern at the current position (`pos0` tells whether that position is the
beginning of the text); `some n` when it matches, consuming `n` runes (leftmost-first). -/
def matchHere : Regexp → Bool → List RuneAt → Option Nat
  | [], _, _ => some 0
  | .beginText :: rest, pos0, inp => if pos0 then matchHere rest pos0 inp else none
  | .endText :: rest, pos0, inp => if inp.isEmpty then matchHere rest pos0 inp else none
  | .cls c :: rest, _, inp =>
    match inp with
    | [] => none
    | x :: t => if c.matchRune x.rune then (matchHere rest false t).map (· + 1) else none
  | .plus c :: rest, _, inp => plusLoop c (matchHere rest false) inp

/-- Unanchored search: is there a position at which the pattern matches. -/
def search (re : Regexp) : Bool → List RuneAt → Bool
  | pos0, [] => (matchHere re pos0 []).isSome
  | pos0, x :: t => (matchHere re pos0 (x :: t)).isSome || search re false t

/-- Go's `(*Regexp).MatchString`: whether `s` contains any match of the pattern. -/
def MatchString (re : Regexp) (s : GoString) : Bool :=
  search re true (decode s)

/-- The loop of `(*Regexp).replaceAll` over the runes of the source: at a position where
the pattern matches, the replacement is appended and the matched runes are skipped; where
it does not, the bytes of the rune are copied.  An empty match directly after the previous
match gets no replacement (unless it is at offset 0).  `skip` counts matched runes still
to pass over, `justMatched` says that the previous match ended at this position. -/
def replaceAll (re : Regexp) (repl : GoString) : Nat → Bool → Bool → List RuneAt → GoString
  | _, pos0, justMatched, [] =>
    match matchHere re pos0 [] with
    | some _ => if justMatched && !pos0 then [] else repl
    | none => []
  | k + 1, _, _, _ :: t => replaceAll re repl k false (k == 0) t
  | 0, pos0, justMatched, x :: t =>
    match matchHere re pos0 (x :: t) with
    | some 0 => (if justMatched && !pos0 then [] else repl) ++ x.bytes
        ++ replaceAll re repl 0 false false t
    | some (n + 1) => repl ++ replaceAll re repl n false (n == 0) t
    | none => x.bytes ++ replaceAll re repl 0 false false t

/-- Go's `(*Regexp).ReplaceAllString` for a replacement without `$` (no expansion):
a copy of `src` with every match of the pattern replaced by `repl`. -/
def ReplaceAllString (re : Regexp) (src repl : GoString) : GoString :=
  replaceAll re repl 0 true true (decode src)

end regexp

/-! ## helpers/file_helper.go: file names -/

namespace helpers

/-- The pattern `^[a-zA-Z0-9_\-\. ]+$` compiled in `HasValidFileName`. -/
def validFileNameRegex : regexp.Regexp :=
  [ .beginText,
    .plus ⟨false, [(0x61, 0x7A), (0x41, 0x5A), (0x30, 0x39), (0x5F, 0x5F), (0x2D, 0x2D),
                   (0x2E, 0x2E), (0x20, 0x20)]⟩,
    .endText ]

/-- The pattern `[^\w\-\. ]` compiled in `SanitizeFileName`; `\w` is `[0-9A-Za-z_]`. -/
def sanitizeRegex : regexp.Regexp :=
  [ .cls ⟨true, [(0x30, 0x39), (0x41, 0x5A), (0x5F, 0x5F), (0x61, 0x7A), (0x2D, 0x2D),
                 (0x2E, 0x2E), (0x20, 0x20)]⟩ ]

/-- Go: `func HasValidFileName(fileName string) bool`. -/
def HasValidFileName (fileName : GoString) : Bool :=
  if fileName = [] then
    false
  else
    let regex := validFileNameRegex
    regexp.MatchString regex fileName

/-- Go: `func SanitizeFileName(fileName string) string`. -/
def SanitizeFileName (fileName : GoString) : GoString :=
  let regex := sanitizeRegex
  regexp.ReplaceAllString regex fileName (goString "_")

end helpers

/-! ## unicode, strings, path/filepath -/

namespace unicode

/-- Go's `unicode.ToLower`.  ASCII is handled in the function itself; for the runes above
`MaxASCII` the result is `To(LowerCase, r)`, a lookup in the table `unicode.CaseRanges`,
which is taken as the parameter `caseTable`. -/
def ToLower (caseTable : Nat → Nat) (r : Nat) : Nat :=
  if r ≤ 0x7F then
    if 0x41 ≤ r ∧ r ≤ 0x5A then r + (0x61 - 0x41) else r
  else caseTable r

end unicode

namespace strings

/-- Go's `strings.Map` for a mapping that never returns a negative rune: every rune of `s`
(an invalid byte counts as `RuneError`) is replaced by the encoding of its image. -/
def Map (mapping : Nat → Nat) (s : GoString) : GoString :=
  (decode s).flatMap fun c => utf8.EncodeRune (mapping c.rune)

/-- Go's `strings.ToLower`: the ASCII-only fast path, else `Map(unicode.ToLower, s)`. -/
def ToLower (caseTable : Nat → Nat) (s : GoString) : GoString :=
  let isASCII := s.all fun c => decide (c < utf8.RuneSelf)
  let hasUpper := s.any fun c => decide (0x41 ≤ c ∧ c ≤ 0x5A)
  if isASCII then
    if !hasUpper then s
    else s.map fun c => if 0x41 ≤ c ∧ c ≤ 0x5A then c + (0x61 - 0x41) else c
  else Map (unicode.ToLower caseTable) s

end strings

namespace filepath

/-- The path separator `/`. -/
def Separator : Nat := 0x2F

/-- Go's `os.IsPathSeparator` (Unix). -/
def IsPathSeparator (c : Nat) : Bool := c == Separator

/-- The loop of `filepath.Ext`, walking from the last byte towards the first:
`before` holds the bytes up to index `i` in reverse order, `after` is `path[i+1:]`. -/
def extLoop : List Nat → GoString → GoString
  | [], _ => []
  | c :: before, after =>
    if IsPathSeparator c then []
    else if c = 0x2E then c :: after
    else extLoop before (c :: after)

/-- Go's `filepath.Ext`: the suffix beginning at the final dot in the final element of
`path`; empty if there is no dot. -/
def Ext (path : GoString) : GoString := extLoop path.reverse []

/-- Go's `filepath.Base` (Unix): the last element of `path`, trailing slashes removed;
`.` for the empty path and `/` for a path of slashes only. -/
def Base (path : GoString) : GoString :=
  if path = [] then goString "."
  else
    let stripped := (path.reverse.dropWhile IsPathSeparator).reverse
    let last := (stripped.reverse.takeWhile fun c => !IsPathSeparator c).reverse
    if last = [] then [Separator] else last

end filepath

/-! ## mime/multipart -/

/-- Go's `textproto.MIMEHeader`, a `map[string][]string`; `none` is the nil map. -/
abbrev MIMEHeader := Option (List (GoString × List GoString))

/-- Indexing a header map: the values stored under `key`, the nil slice when absent. -/
def MIMEHeader.index (h : MIMEHeader) (key : GoString) : List GoString :=
  match h with
  | none => []
  | some m => ((m.find? fun kv => decide (kv.1 = key)).map Prod.snd).getD []

/-- Go's `multipart.FileHeader` (the exported fields). -/
structure FileHeader where
  Filename : GoString
  Header : MIMEHeader
  Size : Int

/-! ## helpers/file_helper.go: content types -/

namespace helpers

/-- Go: `func GetContentType(file *multipart.FileHeader) string`. -/
def GetContentType (caseTable : Nat → Nat) (file : FileHeader) : GoString :=
  if file.Header ≠ none ∧ (file.Header.index (goString "Content-Type")).length > 0 then
    strings.ToLower caseTable ((file.Header.index (goString "Content-Type")).headD [])
  else
    let extension := strings.ToLower caseTable (filepath.Ext file.Filename)
    if extension = goString ".jpg" ∨ extension = goString ".jpeg" then goString "image/jpeg"
    else if extension = goString ".png" then goString "image/png"
    else if extension = goString ".gif" then goString "image/gif"
    else if extension = goString ".bmp" then goString "image/bmp"
    else if extension = goString ".webp" then goString "image/webp"
    else goString "application/octet-stream"

/-- The slice `allowedImageTypes` of `IsValidImageFile`. -/
def allowedImageTypes : List GoString :=
  [ goString "image/jpeg",
    goString "image/png",
    goString "image/gif",
    goString "image/bmp",
    goString "image/webp" ]

/-- Go: `func IsValidImageFile(file *multipart.FileHeader) bool`; `none` is the nil
pointer. -/
def IsValidImageFile (caseTable : Nat → Nat) (file : Option FileHeader) : Bool :=
  match file with
  | none => false
  | some f =>
    if f.Size = 0 then false
    else
      let contentType := GetContentType caseTable f
      allowedImageTypes.any fun allowedType => decide (contentType = allowedType)

end helpers

/-! ## Values, documents and the GridFS driver -/

/-- A Go `error`, represented by its message (`err.Error()`). -/
abbrev Error := GoString

/-- A `time.Time`, as an opaque instant. -/
abbrev Time := Int

/-- Go's `primitive.ObjectID`, a `[12]byte`. -/
abbrev ObjectID := List Nat

/-- A Go `interface{}` value as it occurs in identifiers and metadata documents. -/
inductive Value where
  | nil
  | string (s : GoString)
  | time (t : Time)
  | objectID (id : ObjectID)
  | int (n : Int)
deriving DecidableEq

/-- A `bson.M` or `map[string]interface{}`: keys with their values. -/
abbrev Document := List (GoString × Value)

/-- Indexing a document: the value under `key`, the nil interface when absent. -/
def Document.index (d : Document) (key : GoString) : Value :=
  ((d.find? fun kv => decide (kv.1 = key)).map Prod.snd).getD Value.nil

/-- A `bson.Raw`: the bytes of an encoded document. -/
abbrev Raw := List Nat

/-- The outcome of a Go function returning `(*T, error)`: a value, an error, or a
run-time panic. -/
inductive Result (α : Type) where
  | ok (v : α)
  | err (e : Error)
  | panicked
deriving DecidableEq

namespace hex

/-- The table `reverseHexTable` of `encoding/hex`: the value of a hex digit, `0xff` for
any other byte. -/
def reverseHexTable (c : Nat) : Nat :=
  if 0x30 ≤ c ∧ c ≤ 0x39 then c - 0x30
  else if 0x61 ≤ c ∧ c ≤ 0x66 then c - 0x61 + 10
  else if 0x41 ≤ c ∧ c ≤ 0x46 then c - 0x41 + 10
  else 0xFF

/-- The digits of the verb `%X`. -/
def upperDigits : GoString := goString "0123456789ABCDEF"

/-- Go's `strconv.IsPrint` on the runes up to `0xFF` (its Latin-1 fast path). -/
def IsPrint (r : Nat) : Bool :=
  (decide (0x20 ≤ r) && decide (r ≤ 0x7E)) ||
    (decide (0xA1 ≤ r) && decide (r ≤ 0xFF) && decide (r ≠ 0xAD))

/-- The message of Go's `hex.InvalidByteError(b)`, which is
`fmt.Sprintf("encoding/hex: invalid byte: %#U", rune(b))` for a byte `b`: the code point
as `U+00XY`, followed by the quoted character when it is printable. -/
def InvalidByteError (b : Nat) : Error :=
  goString "encoding/hex: invalid byte: U+00"
    ++ [upperDigits.getD (b / 16) 0, upperDigits.getD (b % 16) 0]
    ++ (if IsPrint b then goString " '" ++ utf8.EncodeRune b ++ goString "'" else [])

/-- The message of Go's `hex.ErrLength`. -/
def ErrLength : Error := goString "encoding/hex: odd length hex string"

/-- Go's `hex.Decode`: two hex digits per byte, left to right; `InvalidByteError` at the
first byte that is no hex digit; on an odd length the last byte is checked for being a
hex digit before `ErrLength` is reported. -/
def Decode : GoString → Except Error (List Nat)
  | [] => .ok []
  | [c] => if reverseHexTable c > 0x0F then .error (InvalidByteError c) else .error ErrLength
  | p :: q :: rest =>
    let a := reverseHexTable p
    let b := reverseHexTable q
    if a > 0x0F then .error (InvalidByteError p)
    else if b > 0x0F then .error (InvalidByteError q)
    else
      match Decode rest with
      | .ok bs => .ok ((a * 16 + b) :: bs)
      | .error e => .error e

/-- The digits of `hex.EncodeToString`. -/
def hextable : GoString := goString "0123456789abcdef"

/-- Go's `hex.EncodeToString`: two lower-case hex digits per byte. -/
def EncodeToString (src : List Nat) : GoString :=
  src.flatMap fun v => [hextable.getD (v / 16) 0, hextable.getD (v % 16) 0]

end hex

namespace primitive

/-- Go's `primitive.ObjectIDFromHex`: exactly 24 hex digits. -/
def ObjectIDFromHex (s : GoString) : Except Error ObjectID :=
  if s.length ≠ 24 then
    .error (goString "the provided hex string is not a valid ObjectID")
  else
    match hex.Decode s with
    | .error e => .error e
    | .ok oid => .ok oid

/-- Go's `ObjectID.Hex`. -/
def Hex (id : ObjectID) : GoString := hex.EncodeToString id

end primitive

namespace gridfs

/-- Go's `gridfs.File`: a catalog entry of the bucket.  `ID` is an `interface{}`,
`Metadata` a `bson.Raw` that is nil (`none`) when the entry has no metadata document. -/
structure File where
  ID : Value
  Length : Int
  ChunkSize : Int
  UploadDate : Time
  Name : GoString
  Metadata : Option Raw

end gridfs

/-- A `mongo.Cursor` over catalog entries: the documents still to come, each either
decoding into a `gridfs.File` or failing to decode. -/
abbrev Cursor := List (Except Error gridfs.File)

/-! ## models/file_response.go -/

namespace models

/-- Go: `type FileUploadResponse struct`. -/
structure FileUploadResponse where
  FileId : GoString
  FileName : GoString
  FileSize : Int
  ContentType : GoString
  UploadDate : Time
deriving DecidableEq

end models

/-! ## services/mongo_service.go -/

namespace services

/-- Go: `type MongoService struct`.  The bucket is the external MongoDB driver; its
operations are the fields, acting on a backing store of type `σ`:
`UploadFromStream` is `bucket.UploadFromStream(fileName, file, opts)` with the metadata
of `opts`, `Find` is `bucket.Find(filter)`, `Unmarshal` is `bson.Unmarshal` into a
`bson.M`. -/
structure MongoService (σ : Type) where
  UploadFromStream : σ → GoString → GoString → Document → Except Error ObjectID × σ
  Find : σ → Document → Except Error Cursor
  Unmarshal : Raw → Except Error Document

/-- Go: `func (s *MongoService) UploadFile(file io.Reader, fileName string,
metadata map[string]interface{}) (*models.FileUploadResponse, error)`;
the result together with the backing store after the call. -/
def MongoService.UploadFile {σ : Type} (s : MongoService σ) (store : σ) (file : GoString)
    (fileName : GoString) (metadata : Document) :
    Result models.FileUploadResponse × σ :=
  match s.UploadFromStream store fileName file metadata with
  | (.error e, store1) => (.err e, store1)
  | (.ok fileID, store1) =>
    let filter : Document := [(goString "_id", Value.objectID fileID)]
    match s.Find store1 filter with
    | .error e => (.err e, store1)
    | .ok cursor =>
      match cursor with
      | [] => (.err (goString "arquivo não encontrado após upload"), store1)
      | .error e :: _ => (.err e, store1)
      | .ok fileInfo :: _ =>
        match metadata.index (goString "contentType") with
        | Value.nil =>
          (.ok ⟨primitive.Hex fileID, fileInfo.Name, fileInfo.Length, [],
            fileInfo.UploadDate⟩, store1)
        | Value.string contentType =>
          (.ok ⟨primitive.Hex fileID, fileInfo.Name, fileInfo.Length, contentType,
            fileInfo.UploadDate⟩, store1)
        | _ => (.panicked, store1)

/-- Go: `func (s *MongoService) GetFileInfoById(id string)
(*models.FileUploadResponse, error)`. -/
def MongoService.GetFileInfoById {σ : Type} (s : MongoService σ) (store : σ)
    (id : GoString) : Result models.FileUploadResponse :=
  match primitive.ObjectIDFromHex id with
  | .error e => .err e
  | .ok objID =>
    let filter : Document := [(goString "_id", Value.objectID objID)]
    match s.Find store filter with
    | .error e => .err e
    | .ok cursor =>
      match cursor with
      | [] => .err (goString "arquivo não encontrado")
      | .error e :: _ => .err e
      | .ok fileInfo :: _ =>
        let contentType : Except Error GoString :=
          match fileInfo.Metadata with
          | none => .ok []
          | some raw =>
            match s.Unmarshal raw with
            | .error e => .error e
            | .ok metadata =>
              match metadata.index (goString "contentType") with
              | Value.string c => .ok c
              | _ => .ok []
        match contentType with
        | .error e => .err e
        | .ok contentType =>
          match fileInfo.ID with
          | Value.objectID oid =>
            .ok ⟨primitive.Hex oid, fileInfo.Name, fileInfo.Length, contentType,
              fileInfo.UploadDate⟩
          | _ => .panicked

end services

/-! ## controllers/images_controller.go -/

namespace controllers

/-- The body passed to `ctx.JSON`: a `gin.H` with the key `error`, or a response object. -/
inductive Body where
  | error (message : GoString)
  | response (r : models.FileUploadResponse)
deriving DecidableEq

/-- What a handler does to the outside world, in order. -/
inductive Effect where
  /-- `ctx.JSON(status, body)` -/
  | json (status : Nat) (body : Body)
  /-- `Open()` on the uploaded file's `FileHeader`, by `ctx.FormFile` or by the handler -/
  | openFile
  /-- `Close()` on a file opened before -/
  | closeFile
  /-- a call of `mongoService.UploadFile(src, fileName, metadata)` -/
  | uploadFile (fileName : GoString) (metadata : Document)
  /-- a run-time panic leaving the handler -/
  | panic
deriving DecidableEq

/-- What `UploadImage` reads from the `gin.Context` and from the uploaded file:
`formFile` is the part named `file` of the parsed multipart form, or the error of the
lookup (the form does not parse, `http.ErrMissingFile`); `formOpenError` is the error, if
any, of the `Open()` that `ctx.FormFile` performs on that part; `uploadedBy` is the
posted form value if any; `now` is `time.Now().UTC()`; `openResult` is the content that
the handler's own `file.Open()` yields, or its error; `closeResult` is the error of
`src.Close()` if any. -/
structure UploadRequest where
  formFile : Except Error FileHeader
  formOpenError : Option Error
  uploadedBy : Option GoString
  now : Time
  openResult : Except Error GoString
  closeResult : Option Error

/-- Go (gin): `func (c *Context) FormFile(name string) (*multipart.FileHeader, error)`.
`c.Request.FormFile(name)` looks the part up in the multipart form and opens it
(`fhs[0].Open()`); when that fails the error is returned, otherwise gin closes the opened
file again (`f.Close()`, its error ignored) and returns the header.  The effects and the
result. -/
def FormFile (req : UploadRequest) : List Effect × Except Error FileHeader :=
  match req.formFile with
  | .error e => ([], .error e)
  | .ok fh =>
    match req.formOpenError with
    | some e => ([Effect.openFile], .error e)
    | none => ([Effect.openFile, Effect.closeFile], .ok fh)

/-- The deferred function of `UploadImage`: close the source, report a failure. -/
def deferredClose (req : UploadRequest) : List Effect :=
  match req.closeResult with
  | some _ => [Effect.closeFile,
      Effect.json 500 (Body.error (goString "Error closing file"))]
  | none => [Effect.closeFile]

/-- The body of `UploadImage` after `ctx.FormFile("file")` has returned the header `file`:
the effects in order and the backing store afterwards. -/
def uploadChecked {σ : Type} (caseTable : Nat → Nat)
    (mongoService : services.MongoService σ) (req : UploadRequest) (store : σ)
    (file : FileHeader) : List Effect × σ :=
  if !helpers.IsValidImageFile caseTable (some file) then
    ([Effect.json 400 (Body.error (goString
      "Invalid image file. Only JPG, PNG, GIF, BMP and WebP formats are allowed"))], store)
  else
    let originalFileName := filepath.Base file.Filename
    if !helpers.HasValidFileName originalFileName then
      ([Effect.json 400 (Body.error (goString "Invalid file name"))], store)
    else
      let safeFileName := helpers.SanitizeFileName originalFileName
      let contentType := helpers.GetContentType caseTable file
      let uploadedBy := req.uploadedBy.getD (goString "anonymous")
      let metadata : Document :=
        [ (goString "contentType", Value.string contentType),
          (goString "originalFileName", Value.string originalFileName),
          (goString "uploadedBy", Value.string uploadedBy),
          (goString "uploadDate", Value.time req.now) ]
      match req.openResult with
      | .error _ =>
        ([Effect.openFile,
          Effect.json 500 (Body.error (goString "Error opening file"))], store)
      | .ok src =>
        match mongoService.UploadFile store src safeFileName metadata with
        | (.err e, store1) =>
          ([Effect.openFile, Effect.uploadFile safeFileName metadata,
            Effect.json 500 (Body.error (goString "Error uploading file: " ++ e))]
            ++ deferredClose req, store1)
        | (.panicked, store1) =>
          ([Effect.openFile, Effect.uploadFile safeFileName metadata]
            ++ deferredClose req ++ [Effect.panic], store1)
        | (.ok response, store1) =>
          ([Effect.openFile, Effect.uploadFile safeFileName metadata,
            Effect.json 200 (Body.response response)] ++ deferredClose req, store1)

/-- Go: `func (c *ImagesController) UploadImage(ctx *gin.Context)`; the effects of the
handler in order (those of `ctx.FormFile` first) and the backing store afterwards. -/
def UploadImage {σ : Type} (caseTable : Nat → Nat) (mongoService : services.MongoService σ)
    (req : UploadRequest) (store : σ) : List Effect × σ :=
  match FormFile req with
  | (opened, .error _) =>
    (opened ++ [Effect.json 400 (Body.error (goString "No files were uploaded"))], store)
  | (opened, .ok file) =>
    (opened ++ (uploadChecked caseTable mongoService req store file).1,
      (uploadChecked caseTable mongoService req store file).2)

end controllers

/-! ## internal/middlewares/token_auth.go -/

namespace middlewares

/-- How the handler returned by `TokenAuthMiddleware` ends. -/
inductive Outcome where
  /-- `c.JSON(http.StatusUnauthorized, gin.H("error": message))` then `c.Abort()` -/
  | unauthorized (status : Nat) (message : GoString)
  /-- `c.Next()` -/
  | next
  /-- a run-time panic (slice bounds out of range) -/
  | panic
deriving DecidableEq

/-- Go: `func TokenAuthMiddleware(validToken string) gin.HandlerFunc`, applied to the
value of `c.GetHeader("Authorization")` (the empty string when the header is absent). -/
def TokenAuthMiddleware (validToken : GoString) (authorization : GoString) : Outcome :=
  let token := authorization
  if token = [] then
    Outcome.unauthorized 401 (goString "Authentication token not provided")
  else if (goString "Bearer ").length > token.length then
    Outcome.panic
  else
    let token := token.drop (goString "Bearer ").length
    if token ≠ validToken then
      Outcome.unauthorized 401 (goString "Invalid authentication token")
    else
      Outcome.next

end middlewares

/-! ## Vocabulary of the specification -/

/-- The permissive character set of the specification, `[A-Za-z0-9_.\- ]`: letters,
digits, underscore, dot, hyphen and space. -/
def permitted (c : Nat) : Prop :=
  (0x41 ≤ c ∧ c ≤ 0x5A) ∨ (0x61 ≤ c ∧ c ≤ 0x7A) ∨ (0x30 ≤ c ∧ c ≤ 0x39) ∨
    c = 0x5F ∨ c = 0x2E ∨ c = 0x2D ∨ c = 0x20

instance (c : Nat) : Decidable (permitted c) := by
  unfold permitted; infer_instance

/-- The fixed extension table of the specification's ContentTypeResolver. -/
def extensionTable : List (GoString × GoString) :=
  [ (goString ".jpg", goString "image/jpeg"),
    (goString ".jpeg", goString "image/jpeg"),
    (goString ".png", goString "image/png"),
    (goString ".gif", goString "image/gif"),
    (goString ".bmp", goString "image/bmp"),
    (goString ".webp", goString "image/webp") ]

/-- The specification's `resolve(declaredHeader, fileName)`, in its words: a non-empty
declared header is returned lower-cased; otherwise the lower-cased extension of the file
name is looked up in the fixed table, and any other or missing extension resolves to the
generic binary type.  The empty string stands for "no declared header". -/
def resolve (caseTable : Nat → Nat) (declaredHeader fileName : GoString) : GoString :=
  if declaredHeader ≠ [] then strings.ToLower caseTable declaredHeader
  else
    match extensionTable.find? fun e =>
      decide (e.1 = strings.ToLower caseTable (filepath.Ext fileName)) with
    | some e => e.2
    | none => goString "application/octet-stream"

/-! ## Concrete instances used to exercise the theorems -/

/-- A small in-memory bucket: the store is the list of catalog entries; an upload appends
an entry with a fixed identifier, `Find` selects the entries whose `_id` equals the one of
the filter, and a raw metadata document is "decoded" into a document without any
`contentType` key. -/
def demoService : services.MongoService (List gridfs.File) where
  UploadFromStream := fun store fileName file _ =>
    (.ok [1, 2, 3, 4, 5, 6, 7, 8, 9, 10, 11, 12],
      store ++ [⟨Value.objectID [1, 2, 3, 4, 5, 6, 7, 8, 9, 10, 11, 12], file.length, 261120,
        0, fileName, none⟩])
  Find := fun store filter =>
    .ok ((store.filter fun f => decide (f.ID = filter.index (goString "_id"))).map .ok)
  Unmarshal := fun _ => .ok [(goString "uploadedBy", Value.string (goString "anonymous"))]

/-- A catalog with two entries: one without a metadata document, one whose metadata
document has no `contentType` key. -/
def demoStore : List gridfs.File :=
  [ ⟨Value.objectID [1, 35, 69, 103, 137, 171, 205, 239, 1, 35, 69, 103], 42, 261120, 1700,
      goString "a.png", none⟩,
    ⟨Value.objectID [171, 205, 239, 1, 35, 69, 103, 137, 171, 205, 239, 1], 7, 261120, 1800,
      goString "b.gif", some [5, 0, 0, 0, 0]⟩ ]

/-- An upload request carrying a text file: not an image. -/
def demoRejected : controllers.UploadRequest where
  formFile := .ok ⟨goString "notes.txt", some [(goString "Content-Type",
    [goString "text/plain"])], 12⟩
  formOpenError := none
  uploadedBy := none
  now := 1900
  openResult := .ok (goString "hello, world")
  closeResult := none

/-- An upload request carrying a PNG file. -/
def demoAccepted : controllers.UploadRequest where
  formFile := .ok ⟨goString "photo_01.png", some [(goString "Content-Type",
    [goString "image/png"])], 4⟩
  formOpenError := none
  uploadedBy := none
  now := 1900
  openResult := .ok [137, 80, 78, 71]
  closeResult := none

/-! ## Lemmas: decoding -/

theorem first_ascii (b : Nat) (h : b < 0x80) : utf8.first b = 0xF0 := by
  simp [utf8.first, h]

theorem DecodeRuneInString_ascii (b : Nat) (t : GoString) (h : b < 0x80) :
    utf8.DecodeRuneInString (b :: t) = (b, 1) := by
  have hf := first_ascii b h
  unfold utf8.DecodeRuneInString
  simp only [hf]
  rfl

theorem first_cases (b : Nat) (h : ¬ b < 0x80) :
    utf8.first b = 0xF1 ∨ (0xC2 ≤ b ∧ b < 0xE0 ∧ utf8.first b = 0x02) ∨
      (b = 0xE0 ∧ utf8.first b = 0x13) ∨ (0xE1 ≤ b ∧ b < 0xF0 ∧ utf8.first b = 0x03) ∨
      (b = 0xED ∧ utf8.first b = 0x23) ∨ (b = 0xF0 ∧ utf8.first b = 0x34) ∨
      (0xF1 ≤ b ∧ b < 0xF4 ∧ utf8.first b = 0x04) ∨ (b = 0xF4 ∧ utf8.first b = 0x44) := by
  unfold utf8.first
  split_ifs <;> omega

theorem DecodeRuneInString_width_one (b : Nat) (t : GoString)
    (h : (utf8.DecodeRuneInString (b :: t)).1 < 0x80) : b < 0x80 := by
  by_contra hb
  revert h
  rcases first_cases b hb with hf | ⟨h1, h2, hf⟩ | ⟨h1, hf⟩ | ⟨h1, h2, hf⟩ | ⟨h1, hf⟩ |
    ⟨h1, hf⟩ | ⟨h1, h2, hf⟩ | ⟨h1, hf⟩
  all_goals
    unfold utf8.DecodeRuneInString
    simp only [hf]
    rcases t with _ | ⟨s1, _ | ⟨s2, _ | ⟨s3, t3⟩⟩⟩ <;>
      simp only [utf8.acceptRanges, utf8.RuneError, List.length_cons, List.length_nil] <;>
      norm_num <;>
      (try split_ifs) <;>
      (try simp only [Prod.fst]) <;>
      omega

theorem decodeFrom_ascii (b : Nat) (t : GoString) (h : b < 0x80) :
    decodeFrom 0 (b :: t) = ⟨b, [b]⟩ :: decodeFrom 0 t := by
  simp [decodeFrom, DecodeRuneInString_ascii b t h]

theorem decode_ascii (l : GoString) (h : ∀ b ∈ l, b < 0x80) :
    decode l = l.map fun b => (⟨b, [b]⟩ : RuneAt) := by
  unfold decode
  induction l with
  | nil => rfl
  | cons b t ih =>
    rw [decodeFrom_ascii b t (h b (List.mem_cons_self b t)),
      ih fun c hc => h c (List.mem_cons_of_mem b hc)]
    rfl

theorem decode_ne_nil (s : GoString) (h : s ≠ []) : decode s ≠ [] := by
  cases s with
  | nil => exact absurd rfl h
  | cons b t => simp [decode, decodeFrom]

theorem decodeFrom_forall (P : RuneAt → Prop)
    (h : ∀ b t, P ⟨(utf8.DecodeRuneInString (b :: t)).1,
      (b :: t).take (utf8.DecodeRuneInString (b :: t)).2⟩) :
    ∀ (s : GoString) (k : Nat), ∀ x ∈ decodeFrom k s, P x := by
  intro s
  induction s with
  | nil => intro k x hx; simp [decodeFrom] at hx
  | cons b t ih =>
    intro k x hx
    cases k with
    | zero =>
      simp only [decodeFrom, List.mem_cons] at hx
      rcases hx with rfl | hx
      · exact h b t
      · exact ih _ x hx
    | succ k =>
      simp only [decodeFrom] at hx
      exact ih _ x hx

theorem decode_bytes_of_lt (s : GoString) :
    ∀ x ∈ decode s, x.rune < 0x80 → x.bytes = [x.rune] := by
  apply decodeFrom_forall (fun x => x.rune < 0x80 → x.bytes = [x.rune])
  intro b t hlt
  have hb := DecodeRuneInString_width_one b t hlt
  simp [DecodeRuneInString_ascii b t hb]

/-! ## Lemmas: the two patterns -/

theorem permitted_lt (c : Nat) (h : permitted c) : c < 0x80 := by
  unfold permitted at h; omega

theorem validClass_iff (r : Nat) :
    regexp.CharClass.matchRune ⟨false, [(0x61, 0x7A), (0x41, 0x5A), (0x30, 0x39),
      (0x5F, 0x5F), (0x2D, 0x2D), (0x2E, 0x2E), (0x20, 0x20)]⟩ r = true ↔ permitted r := by
  simp [regexp.CharClass.matchRune, permitted]
  omega

theorem sanitizeClass_iff (r : Nat) :
    regexp.CharClass.matchRune ⟨true, [(0x30, 0x39), (0x41, 0x5A), (0x5F, 0x5F),
      (0x61, 0x7A), (0x2D, 0x2D), (0x2E, 0x2E), (0x20, 0x20)]⟩ r = true ↔ ¬ permitted r := by
  simp [regexp.CharClass.matchRune, permitted]
  omega

theorem plusLoop_endText (c : regexp.CharClass) (inp : List RuneAt) :
    (regexp.plusLoop c (regexp.matchHere [regexp.Inst.endText] false) inp).isSome
      = decide (inp ≠ [] ∧ ∀ x ∈ inp, c.matchRune x.rune = true) := by
  induction inp with
  | nil => simp [regexp.plusLoop]
  | cons x t ih =>
    unfold regexp.plusLoop
    by_cases hx : c.matchRune x.rune = true
    · simp only [hx, if_true]
      cases hp : regexp.plusLoop c (regexp.matchHere [regexp.Inst.endText] false) t with
      | some n =>
        rw [hp] at ih
        simp at ih
        simp [hx]
        exact ih.2
      | none =>
        rw [hp] at ih
        cases t with
        | nil => simp [regexp.matchHere, hx]
        | cons y u =>
          simp at ih
          simp [regexp.matchHere, hx]
          exact ih
    · simp [hx]

theorem search_beginText_false (rest : regexp.Regexp) (inp : List RuneAt) :
    regexp.search (regexp.Inst.beginText :: rest) false inp = false := by
  induction inp with
  | nil => simp [regexp.search, regexp.matchHere]
  | cons x t ih => simp [regexp.search, regexp.matchHere, ih]

theorem decode_eq_nil_iff (s : GoString) : decode s = [] ↔ s = [] := by
  constructor
  · intro h
    by_contra hs
    exact decode_ne_nil s hs h
  · rintro rfl
    rfl

theorem MatchString_valid (s : GoString) :
    regexp.MatchString helpers.validFileNameRegex s
      = decide (s ≠ [] ∧ ∀ c ∈ runes s, permitted c) := by
  unfold regexp.MatchString helpers.validFileNameRegex runes
  have key : ∀ inp : List RuneAt,
      regexp.search [regexp.Inst.beginText,
        regexp.Inst.plus ⟨false, [(0x61, 0x7A), (0x41, 0x5A), (0x30, 0x39), (0x5F, 0x5F),
          (0x2D, 0x2D), (0x2E, 0x2E), (0x20, 0x20)]⟩, regexp.Inst.endText] true inp
        = decide (inp ≠ [] ∧ ∀ x ∈ inp, permitted x.rune) := by
    intro inp
    cases inp with
    | nil => simp [regexp.search, regexp.matchHere, regexp.plusLoop]
    | cons x t =>
      have hm : regexp.matchHere [regexp.Inst.beginText,
          regexp.Inst.plus ⟨false, [(0x61, 0x7A), (0x41, 0x5A), (0x30, 0x39), (0x5F, 0x5F),
            (0x2D, 0x2D), (0x2E, 0x2E), (0x20, 0x20)]⟩, regexp.Inst.endText] true (x :: t)
          = regexp.plusLoop ⟨false, [(0x61, 0x7A), (0x41, 0x5A), (0x30, 0x39), (0x5F, 0x5F),
            (0x2D, 0x2D), (0x2E, 0x2E), (0x20, 0x20)]⟩
            (regexp.matchHere [regexp.Inst.endText] false) (x :: t) := rfl
      rw [regexp.search, search_beginText_false, Bool.or_false, hm, plusLoop_endText]
      simp only [validClass_iff]
  rw [key]
  simp [decode_eq_nil_iff]

theorem replaceAll_sanitize (repl : GoString) (inp : List RuneAt) :
    ∀ (pos0 justMatched : Bool),
      regexp.replaceAll helpers.sanitizeRegex repl 0 pos0 justMatched inp
        = inp.flatMap fun x => if permitted x.rune then x.bytes else repl := by
  unfold helpers.sanitizeRegex
  induction inp with
  | nil => intro p j; simp [regexp.replaceAll, regexp.matchHere]
  | cons x t ih =>
    intro p j
    by_cases hx : permitted x.rune
    · have hm := (sanitizeClass_iff x.rune).not.mpr (not_not.mpr hx)
      simp only [Bool.not_eq_true] at hm
      simp only [regexp.replaceAll, regexp.matchHere, hm]
      simp [ih, hx]
    · have hm := (sanitizeClass_iff x.rune).mpr hx
      simp only [regexp.replaceAll, regexp.matchHere, hm]
      simp [ih, hx]

theorem SanitizeFileName_eq (name : GoString) :
    helpers.SanitizeFileName name
      = (runes name).map fun c => if permitted c then c else 0x5F := by
  unfold helpers.SanitizeFileName regexp.ReplaceAllString runes
  rw [replaceAll_sanitize]
  have hrepl : goString "_" = [0x5F] := by decide
  rw [hrepl]
  have hb := decode_bytes_of_lt name
  generalize decode name = l at hb
  induction l with
  | nil => rfl
  | cons x t ih =>
    have ht := ih fun y hy => hb y (List.mem_cons_of_mem x hy)
    simp only [List.flatMap_cons, List.map_cons, ht]
    by_cases hx : permitted x.rune
    · simp [hx, hb x (List.mem_cons_self x t) (permitted_lt _ hx)]
    · simp [hx]

theorem runes_ascii (l : GoString) (h : ∀ b ∈ l, b < 0x80) : runes l = l := by
  unfold runes
  rw [decode_ascii l h]
  simp [Function.comp_def]

theorem runes_permitted_iff (s : GoString) :
    (∀ c ∈ runes s, permitted c) ↔ ∀ b ∈ s, permitted b := by
  constructor
  · intro h
    induction s with
    | nil => simp
    | cons b t ih =>
      have hhead : permitted (utf8.DecodeRuneInString (b :: t)).1 :=
        h _ (by simp [runes, decode, decodeFrom])
      have hb : b < 0x80 := DecodeRuneInString_width_one b t (permitted_lt _ hhead)
      have hr : runes (b :: t) = b :: runes t := by
        simp [runes, decode, decodeFrom_ascii b t hb]
      rw [hr] at h
      intro c hc
      rcases List.mem_cons.mp hc with rfl | hc
      · exact h _ (List.mem_cons_self _ _)
      · exact ih (fun d hd => h d (List.mem_cons_of_mem _ hd)) c hc
  · intro h
    rw [runes_ascii s fun b hb => permitted_lt b (h b hb)]
    exact h

theorem HasValidFileName_eq (name : GoString) :
    helpers.HasValidFileName name = decide (name ≠ [] ∧ ∀ c ∈ runes name, permitted c) := by
  unfold helpers.HasValidFileName
  by_cases h : name = []
  · simp [h]
  · simp only [h, if_false]
    rw [MatchString_valid]

/-! ## The claims -/

/-- C1. `HasValidFileName(name)` is false exactly when `name` is empty or holds a character
outside `[A-Za-z0-9_.\- ]`, and true otherwise; "character" can be read as decoded rune
or as byte, the two readings agree.  `photo_01.jpg` is accepted, `../etc/passwd` is not. -/
theorem HasValidFileName_spec :
    (∀ name : GoString, helpers.HasValidFileName name = false ↔
      (name = [] ∨ ∃ c ∈ runes name, ¬ permitted c)) ∧
    (∀ name : GoString, helpers.HasValidFileName name = true ↔
      ¬ (name = [] ∨ ∃ c ∈ runes name, ¬ permitted c)) ∧
    (∀ name : GoString, helpers.HasValidFileName name = false ↔
      (name = [] ∨ ∃ b ∈ name, ¬ permitted b)) ∧
    helpers.HasValidFileName (goString "photo_01.jpg") = true ∧
    helpers.HasValidFileName (goString "../etc/passwd") = false := by
  refine ⟨?_, ?_, ?_, by decide, by decide⟩
  · intro name
    rw [HasValidFileName_eq]
    by_cases h : name = [] <;> simp [h]
  · intro name
    rw [HasValidFileName_eq]
    by_cases h : name = [] <;> simp [h]
  · intro name
    have hb := runes_permitted_iff name
    rw [HasValidFileName_eq]
    by_cases h : name = []
    · simp [h]
    · simp only [h, ne_eq, not_false_eq_true, true_and, false_or, decide_eq_false_iff_not, hb]
      push_neg
      rfl

theorem SanitizeFileName_permitted (name : GoString) :
    ∀ b ∈ helpers.SanitizeFileName name, permitted b := by
  rw [SanitizeFileName_eq]
  intro b hb
  rcases List.mem_map.mp hb with ⟨c, _, rfl⟩
  by_cases hc : permitted c
  · simp [hc]
  · simp only [hc, if_false]; unfold permitted; omega

theorem runes_SanitizeFileName (name : GoString) :
    runes (helpers.SanitizeFileName name) = helpers.SanitizeFileName name :=
  runes_ascii _ fun b hb => permitted_lt b (SanitizeFileName_permitted name b hb)

theorem map_sanitize_permitted (l : List Nat) (h : ∀ c ∈ l, permitted c) :
    l.map (fun c => if permitted c then c else 0x5F) = l := by
  induction l with
  | nil => rfl
  | cons c t ih =>
    have hc := h c (List.mem_cons_self c t)
    simp only [List.map_cons, hc, if_true]
    rw [ih fun d hd => h d (List.mem_cons_of_mem c hd)]

/-- C5. `SanitizeFileName(name)` is `name` with every character outside the permissive set
replaced by one `_` and every other character kept in place: the characters of the result
are those of `name` mapped one by one, so there are as many of them, all of them are in
the permissive set, and each is stored as a single byte. -/
theorem SanitizeFileName_spec (name : GoString) :
    runes (helpers.SanitizeFileName name)
      = (runes name).map (fun c => if permitted c then c else 0x5F) ∧
    (runes (helpers.SanitizeFileName name)).length = (runes name).length ∧
    (∀ c ∈ runes (helpers.SanitizeFileName name), permitted c) ∧
    helpers.SanitizeFileName name = runes (helpers.SanitizeFileName name) := by
  have hr := runes_SanitizeFileName name
  refine ⟨?_, ?_, ?_, hr.symm⟩
  · rw [hr, SanitizeFileName_eq]
  · rw [hr, SanitizeFileName_eq, List.length_map]
  · rw [hr]; exact SanitizeFileName_permitted name

/-- C6. `SanitizeFileName` is idempotent. -/
theorem SanitizeFileName_idempotent (x : GoString) :
    helpers.SanitizeFileName (helpers.SanitizeFileName x) = helpers.SanitizeFileName x := by
  rw [SanitizeFileName_eq (helpers.SanitizeFileName x), runes_SanitizeFileName x]
  exact map_sanitize_permitted _ (SanitizeFileName_permitted x)

/-- C7, as the code has it: the space is in the permissive set and stays, so
`SanitizeFileName("bad name!.png")` is `"bad name_.png"`. -/
theorem SanitizeFileName_example :
    helpers.SanitizeFileName (goString "bad name!.png") = goString "bad name_.png" := by
  decide

/-- C7 as stated fails: the result is not `"bad_name_.png"`. -/
theorem SanitizeFileName_example_refuted :
    helpers.SanitizeFileName (goString "bad name!.png") ≠ goString "bad_name_.png" := by
  decide

theorem index_ne_nil_header (h : MIMEHeader) (key : GoString) (v : GoString)
    (rest : List GoString) (hi : h.index key = v :: rest) : h ≠ none := by
  rintro rfl
  simp [MIMEHeader.index] at hi

theorem GetContentType_declared (caseTable : Nat → Nat) (file : FileHeader) (h : GoString)
    (rest : List GoString) (hi : file.Header.index (goString "Content-Type") = h :: rest) :
    helpers.GetContentType caseTable file = strings.ToLower caseTable h := by
  have hn := index_ne_nil_header _ _ _ _ hi
  unfold helpers.GetContentType
  rw [hi]
  simp [hn]

theorem GetContentType_undeclared (caseTable : Nat → Nat) (file : FileHeader)
    (hi : file.Header.index (goString "Content-Type") = []) :
    helpers.GetContentType caseTable file
      = resolve caseTable [] file.Filename := by
  unfold helpers.GetContentType resolve extensionTable
  rw [hi]
  simp only [List.length_nil, gt_iff_lt, lt_self_iff_false, and_false, if_false, ne_eq,
    not_true_eq_false]
  generalize strings.ToLower caseTable (filepath.Ext file.Filename) = e
  by_cases h1 : e = goString ".jpg"
  · subst h1; rfl
  by_cases h2 : e = goString ".jpeg"
  · subst h2; rfl
  by_cases h3 : e = goString ".png"
  · subst h3; rfl
  by_cases h4 : e = goString ".gif"
  · subst h4; rfl
  by_cases h5 : e = goString ".bmp"
  · subst h5; rfl
  by_cases h6 : e = goString ".webp"
  · subst h6; rfl
  simp [List.find?, h1, h2, h3, h4, h5, h6, eq_comm]

/-- C2. `GetContentType` implements `resolve`: a file whose declared Content-Type value
`h` is non-empty resolves to `h` lower-cased, whatever its name and whether or not `h` is
a known type; a file without a declared Content-Type (nil header map, no such key, or an
empty value list) resolves by the lower-cased extension of its name: `.jpg`/`.jpeg`,
`.png`, `.gif`, `.bmp`, `.webp` to their image types, anything else to
`application/octet-stream`. -/
theorem GetContentType_resolve (caseTable : Nat → Nat) :
    (∀ (file : FileHeader) (h : GoString) (rest : List GoString),
      file.Header.index (goString "Content-Type") = h :: rest → h ≠ [] →
      helpers.GetContentType caseTable file = strings.ToLower caseTable h ∧
      helpers.GetContentType caseTable file = resolve caseTable h file.Filename) ∧
    (∀ file : FileHeader, file.Header.index (goString "Content-Type") = [] →
      helpers.GetContentType caseTable file = resolve caseTable [] file.Filename ∧
      ((strings.ToLower caseTable (filepath.Ext file.Filename) = goString ".jpg" ∨
        strings.ToLower caseTable (filepath.Ext file.Filename) = goString ".jpeg") →
        helpers.GetContentType caseTable file = goString "image/jpeg") ∧
      (strings.ToLower caseTable (filepath.Ext file.Filename) = goString ".png" →
        helpers.GetContentType caseTable file = goString "image/png") ∧
      (strings.ToLower caseTable (filepath.Ext file.Filename) = goString ".gif" →
        helpers.GetContentType caseTable file = goString "image/gif") ∧
      (strings.ToLower caseTable (filepath.Ext file.Filename) = goString ".bmp" →
        helpers.GetContentType caseTable file = goString "image/bmp") ∧
      (strings.ToLower caseTable (filepath.Ext file.Filename) = goString ".webp" →
        helpers.GetContentType caseTable file = goString "image/webp") ∧
      (strings.ToLower caseTable (filepath.Ext file.Filename) ∉
          [goString ".jpg", goString ".jpeg", goString ".png", goString ".gif",
            goString ".bmp", goString ".webp"] →
        helpers.GetContentType caseTable file = goString "application/octet-stream")) ∧
    helpers.GetContentType caseTable
      ⟨goString "x.png", some [(goString "Content-Type", [goString "image/PNG"])], 10⟩
      = goString "image/png" ∧
    helpers.GetContentType caseTable
      ⟨goString "x.png", some [(goString "Content-Type", [goString "Text/X-Unknown"])], 10⟩
      = goString "text/x-unknown" ∧
    helpers.GetContentType caseTable ⟨goString "x.gif", none, 10⟩ = goString "image/gif" ∧
    helpers.GetContentType caseTable ⟨goString "dir.png/photo.JPeG", some [], 10⟩
      = goString "image/jpeg" ∧
    helpers.GetContentType caseTable ⟨goString "x.xyz", none, 10⟩
      = goString "application/octet-stream" ∧
    helpers.GetContentType caseTable ⟨goString "dir.png/noext", none, 10⟩
      = goString "application/octet-stream" := by
  refine ⟨?_, ?_, rfl, rfl, rfl, rfl, rfl, rfl⟩
  · intro file h rest hi hne
    refine ⟨GetContentType_declared caseTable file h rest hi, ?_⟩
    rw [GetContentType_declared caseTable file h rest hi]
    simp [resolve, hne]
  · intro file hi
    have hr := GetContentType_undeclared caseTable file hi
    refine ⟨hr, ?_⟩
    rw [hr]
    unfold resolve extensionTable
    simp only [ne_eq, not_true_eq_false, if_false]
    generalize strings.ToLower caseTable (filepath.Ext file.Filename) = e
    refine ⟨?_, ?_, ?_, ?_, ?_, ?_⟩
    · rintro (rfl | rfl) <;> rfl
    · rintro rfl; rfl
    · rintro rfl; rfl
    · rintro rfl; rfl
    · rintro rfl; rfl
    · intro hnot
      simp only [List.mem_cons, List.mem_singleton, not_or, List.not_mem_nil,
        or_false] at hnot
      obtain ⟨h1, h2, h3, h4, h5, h6⟩ := hnot
      simp [List.find?, h1, h2, h3, h4, h5, h6, eq_comm]

/-- C3. `IsValidImageFile(file)` is true exactly when `file` is not nil, its size is not 0
and `GetContentType(file)` is one of the five image types. -/
theorem IsValidImageFile_iff (caseTable : Nat → Nat) (file : Option FileHeader) :
    helpers.IsValidImageFile caseTable file = true ↔
      ∃ f, file = some f ∧ f.Size ≠ 0 ∧
        (helpers.GetContentType caseTable f = goString "image/jpeg" ∨
          helpers.GetContentType caseTable f = goString "image/png" ∨
          helpers.GetContentType caseTable f = goString "image/gif" ∨
          helpers.GetContentType caseTable f = goString "image/bmp" ∨
          helpers.GetContentType caseTable f = goString "image/webp") := by
  cases file with
  | none => simp [helpers.IsValidImageFile]
  | some f =>
    unfold helpers.IsValidImageFile helpers.allowedImageTypes
    by_cases hs : f.Size = 0
    · simp [hs]
    · simp [hs]

theorem uploadChecked_rejects {σ : Type} (caseTable : Nat → Nat)
    (mongoService : services.MongoService σ) (req : controllers.UploadRequest) (store : σ)
    (file : FileHeader)
    (hbad : helpers.IsValidImageFile caseTable (some file) = false ∨
      helpers.HasValidFileName (filepath.Base file.Filename) = false) :
    ∃ message, controllers.uploadChecked caseTable mongoService req store file
      = ([controllers.Effect.json 400 (controllers.Body.error message)], store) := by
  unfold controllers.uploadChecked
  by_cases hv : helpers.IsValidImageFile caseTable (some file) = true
  · have hn : helpers.HasValidFileName (filepath.Base file.Filename) = false := by
      rcases hbad with h | h
      · rw [hv] at h; cases h
      · exact h
    exact ⟨goString "Invalid file name", by simp [hv, hn]⟩
  · exact ⟨goString
      "Invalid image file. Only JPG, PNG, GIF, BMP and WebP formats are allowed",
      by simp [hv]⟩

/-- C4, as the code has it.  When the request carries a file and the file is not a valid
image or its base name is not a valid file name, `UploadImage` answers with exactly one
`ctx.JSON(400, ...)`, never calls `MongoService.UploadFile` and leaves the backing store
as it was.  The uploaded file is opened once all the same: by `ctx.FormFile`, which opens
the part to fetch it and closes it again before any validation runs (when that open fails
the answer is the 400 of a missing file); the handler's own `file.Open()` is not
reached. -/
theorem UploadImage_rejects_invalid {σ : Type} (caseTable : Nat → Nat)
    (mongoService : services.MongoService σ) (req : controllers.UploadRequest) (store : σ)
    (file : FileHeader) (hfile : req.formFile = .ok file)
    (hbad : helpers.IsValidImageFile caseTable (some file) = false ∨
      helpers.HasValidFileName (filepath.Base file.Filename) = false) :
    (∃ message,
      (controllers.UploadImage caseTable mongoService req store).1
        = [controllers.Effect.openFile, controllers.Effect.closeFile,
            controllers.Effect.json 400 (controllers.Body.error message)] ∨
      (controllers.UploadImage caseTable mongoService req store).1
        = [controllers.Effect.openFile,
            controllers.Effect.json 400 (controllers.Body.error message)]) ∧
    (∀ fileName metadata, controllers.Effect.uploadFile fileName metadata
      ∉ (controllers.UploadImage caseTable mongoService req store).1) ∧
    (controllers.UploadImage caseTable mongoService req store).2 = store := by
  obtain ⟨message, hm⟩ := uploadChecked_rejects caseTable mongoService req store file hbad
  unfold controllers.UploadImage controllers.FormFile
  rw [hfile]
  cases ho : req.formOpenError with
  | some e =>
    refine ⟨⟨goString "No files were uploaded", Or.inr ?_⟩, ?_, ?_⟩
    · simp
    · intro fileName metadata; simp
    · simp
  | none =>
    refine ⟨⟨message, Or.inl ?_⟩, ?_, ?_⟩
    · simp [hm]
    · intro fileName metadata; simp [hm]
    · simp [hm]

/-- C4 at a concrete request: a text file is turned away with status 400 after the open
and close of `ctx.FormFile`, without a call of `UploadFile`, and the catalog is
unchanged. -/
theorem UploadImage_rejects_invalid_witness :
    (∃ message,
      (controllers.UploadImage id demoService demoRejected demoStore).1
        = [controllers.Effect.openFile, controllers.Effect.closeFile,
            controllers.Effect.json 400 (controllers.Body.error message)] ∨
      (controllers.UploadImage id demoService demoRejected demoStore).1
        = [controllers.Effect.openFile,
            controllers.Effect.json 400 (controllers.Body.error message)]) ∧
    (∀ fileName metadata, controllers.Effect.uploadFile fileName metadata
      ∉ (controllers.UploadImage id demoService demoRejected demoStore).1) ∧
    (controllers.UploadImage id demoService demoRejected demoStore).2 = demoStore :=
  UploadImage_rejects_invalid id demoService demoRejected demoStore
    ⟨goString "notes.txt", some [(goString "Content-Type", [goString "text/plain"])], 12⟩
    rfl (Or.inl rfl)

/-- C4 as stated fails: the demo request carries a text file, which `IsValidImageFile`
refuses, and yet the uploaded file is opened (by `ctx.FormFile`) before the 400. -/
theorem UploadImage_opens_before_validation :
    demoRejected.formFile = .ok ⟨goString "notes.txt",
      some [(goString "Content-Type", [goString "text/plain"])], 12⟩ ∧
    helpers.IsValidImageFile id (some ⟨goString "notes.txt",
      some [(goString "Content-Type", [goString "text/plain"])], 12⟩) = false ∧
    controllers.Effect.openFile
      ∈ (controllers.UploadImage id demoService demoRejected demoStore).1 ∧
    (controllers.UploadImage id demoService demoRejected demoStore).1
      = [ controllers.Effect.openFile, controllers.Effect.closeFile,
          controllers.Effect.json 400 (controllers.Body.error (goString
            "Invalid image file. Only JPG, PNG, GIF, BMP and WebP formats are allowed")) ] :=
  ⟨rfl, rfl, by decide, by decide⟩

theorem UploadImage_accepts_example :
    (controllers.UploadImage id demoService demoAccepted demoStore).1
      = [ controllers.Effect.openFile,
          controllers.Effect.closeFile,
          controllers.Effect.openFile,
          controllers.Effect.uploadFile (goString "photo_01.png")
            [ (goString "contentType", Value.string (goString "image/png")),
              (goString "originalFileName", Value.string (goString "photo_01.png")),
              (goString "uploadedBy", Value.string (goString "anonymous")),
              (goString "uploadDate", Value.time 1900) ],
          controllers.Effect.json 200 (controllers.Body.response
            ⟨goString "0102030405060708090a0b0c", goString "photo_01.png", 4,
              goString "image/png", 0⟩),
          controllers.Effect.closeFile ] ∧
    (controllers.UploadImage id demoService demoAccepted demoStore).2.length = 3 := by
  decide

theorem Document_index_absent (d : Document) (key : GoString)
    (h : ∀ kv ∈ d, kv.1 ≠ key) : d.index key = Value.nil := by
  unfold Document.index
  have hf : d.find? (fun kv => decide (kv.1 = key)) = none := by
    rw [List.find?_eq_none]
    intro kv hkv
    simpa using h kv hkv
  rw [hf]
  rfl

/-- C9. Missing-field tolerance: for a well-formed id whose lookup yields a catalog entry
(the driver finds it, it decodes, and its `_id` is that object id), if the entry has no
metadata document, or has one that decodes to a document without a `contentType` key,
`GetFileInfoById` returns no error and a response with `ContentType == ""` and the
entry's id (in hex), name, length and upload date. -/
theorem GetFileInfoById_missing_contentType {σ : Type} (s : services.MongoService σ)
    (store : σ) (id : GoString) (objID : ObjectID) (entry : gridfs.File) (rest : Cursor)
    (hid : primitive.ObjectIDFromHex id = .ok objID)
    (hfind : s.Find store [(goString "_id", Value.objectID objID)] = .ok (.ok entry :: rest))
    (hentry : entry.ID = Value.objectID objID)
    (hmeta : entry.Metadata = none ∨
      ∃ raw doc, entry.Metadata = some raw ∧ s.Unmarshal raw = .ok doc ∧
        ∀ kv ∈ doc, kv.1 ≠ goString "contentType") :
    s.GetFileInfoById store id
      = .ok ⟨primitive.Hex objID, entry.Name, entry.Length, [], entry.UploadDate⟩ := by
  unfold services.MongoService.GetFileInfoById
  rw [hid]
  simp only [hfind]
  rcases hmeta with hnone | ⟨raw, doc, hsome, hun, hkey⟩
  · simp only [hnone, hentry]
  · simp only [hsome, hun, Document_index_absent doc _ hkey, hentry]

/-- C9 at concrete entries: the first entry of the demo catalog has no metadata document,
the second has one without the key; both lookups succeed with an empty content type. -/
theorem GetFileInfoById_missing_contentType_witness :
    demoService.GetFileInfoById demoStore (goString "0123456789abcdef01234567")
      = .ok ⟨goString "0123456789abcdef01234567", goString "a.png", 42, [], 1700⟩ ∧
    demoService.GetFileInfoById demoStore (goString "ABCDEF0123456789abcdef01")
      = .ok ⟨goString "abcdef0123456789abcdef01", goString "b.gif", 7, [], 1800⟩ :=
  ⟨GetFileInfoById_missing_contentType demoService demoStore
      (goString "0123456789abcdef01234567")
      [1, 35, 69, 103, 137, 171, 205, 239, 1, 35, 69, 103]
      ⟨Value.objectID [1, 35, 69, 103, 137, 171, 205, 239, 1, 35, 69, 103], 42, 261120, 1700,
        goString "a.png", none⟩ [] rfl rfl rfl (Or.inl rfl),
   GetFileInfoById_missing_contentType demoService demoStore
      (goString "ABCDEF0123456789abcdef01")
      [171, 205, 239, 1, 35, 69, 103, 137, 171, 205, 239, 1]
      ⟨Value.objectID [171, 205, 239, 1, 35, 69, 103, 137, 171, 205, 239, 1], 7, 261120, 1800,
        goString "b.gif", some [5, 0, 0, 0, 0]⟩ [] rfl rfl rfl
      (Or.inr ⟨[5, 0, 0, 0, 0],
        [(goString "uploadedBy", Value.string (goString "anonymous"))], rfl, rfl,
        by decide⟩)⟩

theorem EncodeRune_ne_nil (r : Nat) : utf8.EncodeRune r ≠ [] := by
  unfold utf8.EncodeRune
  split_ifs <;> simp

theorem ToLower_eq_nil_iff (caseTable : Nat → Nat) (s : GoString) :
    strings.ToLower caseTable s = [] ↔ s = [] := by
  unfold strings.ToLower strings.Map
  constructor
  · intro h
    by_contra hs
    obtain ⟨x, t, hd⟩ := List.exists_cons_of_ne_nil (decode_ne_nil s hs)
    dsimp only at h
    split_ifs at h
    · exact hs h
    · exact hs (List.map_eq_nil_iff.mp h)
    · rw [hd] at h
      simp only [List.flatMap_cons, List.append_eq_nil] at h
      exact EncodeRune_ne_nil _ h.1
  · rintro rfl
    rfl

theorem resolve_undeclared_ne_nil (caseTable : Nat → Nat) (fileName : GoString) :
    resolve caseTable [] fileName ≠ [] := by
  unfold resolve extensionTable
  simp only [ne_eq, not_true_eq_false, if_false]
  generalize strings.ToLower caseTable (filepath.Ext fileName) = e
  by_cases h1 : e = goString ".jpg"
  · subst h1; decide
  by_cases h2 : e = goString ".jpeg"
  · subst h2; decide
  by_cases h3 : e = goString ".png"
  · subst h3; decide
  by_cases h4 : e = goString ".gif"
  · subst h4; decide
  by_cases h5 : e = goString ".bmp"
  · subst h5; decide
  by_cases h6 : e = goString ".webp"
  · subst h6; decide
  have hd : goString "application/octet-stream" ≠ [] := by decide
  simpa [List.find?, h1, h2, h3, h4, h5, h6, eq_comm] using hd

theorem GetContentType_eq_nil_iff (caseTable : Nat → Nat) (file : FileHeader) :
    helpers.GetContentType caseTable file = [] ↔
      ∃ rest, file.Header.index (goString "Content-Type") = [] :: rest := by
  cases hi : file.Header.index (goString "Content-Type") with
  | nil =>
    rw [GetContentType_undeclared caseTable file hi]
    constructor
    · intro h
      exact absurd h (resolve_undeclared_ne_nil caseTable file.Filename)
    · rintro ⟨rest, h⟩
      cases h
  | cons v rest =>
    rw [GetContentType_declared caseTable file v rest hi, ToLower_eq_nil_iff]
    constructor
    · rintro rfl
      exact ⟨rest, rfl⟩
    · rintro ⟨rest2, h⟩
      exact (List.cons.inj h).1

/-- C8 at the failing input: a file part whose Content-Type header is present with the
empty string as value resolves to the empty string, not to a non-empty type; the
extension `.png` is not consulted, and the file is then refused as an image, while the
same file without the header resolves to `image/png` and is accepted. -/
theorem GetContentType_empty_header_value (caseTable : Nat → Nat) :
    helpers.GetContentType caseTable
      ⟨goString "x.png", some [(goString "Content-Type", [[]])], 10⟩ = [] ∧
    helpers.IsValidImageFile caseTable
      (some ⟨goString "x.png", some [(goString "Content-Type", [[]])], 10⟩) = false ∧
    helpers.GetContentType caseTable ⟨goString "x.png", some [], 10⟩ = goString "image/png" ∧
    helpers.IsValidImageFile caseTable (some ⟨goString "x.png", some [], 10⟩) = true :=
  ⟨rfl, rfl, rfl, rfl⟩

/-- C10 at the failing input: with the Authorization value `abc` (non-empty, shorter than
`Bearer `) the slice expression `token[len("Bearer "):]` is out of bounds and the handler
panics, whatever the configured token; it neither answers 401 nor calls the next
handler. -/
theorem TokenAuthMiddleware_short_header (validToken : GoString) :
    middlewares.TokenAuthMiddleware validToken (goString "abc")
      = middlewares.Outcome.panic :=
  rfl

theorem TokenAuthMiddleware_panics_iff (validToken authorization : GoString) :
    middlewares.TokenAuthMiddleware validToken authorization = middlewares.Outcome.panic ↔
      authorization ≠ [] ∧ authorization.length < 7 := by
  unfold middlewares.TokenAuthMiddleware
  have hl : (goString "Bearer ").length = 7 := by decide
  rw [hl]
  by_cases h1 : authorization = []
  · simp [h1]
  · by_cases h2 : 7 > authorization.length
    · simp [h1, h2]
    · have h3 : ¬ authorization.length < 7 := h2
      simp only [h1, h2, h3, if_false, ne_eq, not_false_eq_true, true_and, iff_false]
      split_ifs <;> simp

theorem SanitizeFileName_fixed_iff (name : GoString) :
    helpers.SanitizeFileName name = name ↔ ∀ b ∈ name, permitted b := by
  constructor
  · intro h
    rw [← h]
    exact SanitizeFileName_permitted name
  · intro h
    rw [SanitizeFileName_eq, runes_ascii name fun b hb => permitted_lt b (h b hb)]
    exact map_sanitize_permitted name h

theorem HasValidFileName_iff_fixed (name : GoString) :
    helpers.HasValidFileName name = true ↔
      name ≠ [] ∧ helpers.SanitizeFileName name = name := by
  rw [HasValidFileName_eq, SanitizeFileName_fixed_iff, decide_eq_true_iff,
    runes_permitted_iff]

theorem uploadChecked_uploadFile_name {σ : Type} (caseTable : Nat → Nat)
    (mongoService : services.MongoService σ) (req : controllers.UploadRequest) (store : σ)
    (file : FileHeader) (fileName : GoString) (metadata : Document)
    (h : controllers.Effect.uploadFile fileName metadata
      ∈ (controllers.uploadChecked caseTable mongoService req store file).1) :
    helpers.HasValidFileName (filepath.Base file.Filename) = true ∧
      fileName = helpers.SanitizeFileName (filepath.Base file.Filename) := by
  unfold controllers.uploadChecked at h
  by_cases hv : helpers.IsValidImageFile caseTable (some file) = true
  · by_cases hn : helpers.HasValidFileName (filepath.Base file.Filename) = true
    · refine ⟨hn, ?_⟩
      simp only [hv, hn, Bool.not_true, Bool.false_eq_true, if_false] at h
      cases ho : req.openResult with
      | error e => rw [ho] at h; simp at h
      | ok src =>
        rw [ho] at h
        simp only at h
        split at h <;>
          cases hc : req.closeResult <;>
          simp [controllers.deferredClose, hc] at h <;>
          exact h.1
    · simp [hv, hn] at h
  · simp [hv] at h

theorem UploadImage_uploadFile_name {σ : Type} (caseTable : Nat → Nat)
    (mongoService : services.MongoService σ) (req : controllers.UploadRequest) (store : σ)
    (fileName : GoString) (metadata : Document)
    (h : controllers.Effect.uploadFile fileName metadata
      ∈ (controllers.UploadImage caseTable mongoService req store).1) :
    ∃ file, req.formFile = .ok file ∧
      helpers.HasValidFileName (filepath.Base file.Filename) = true ∧
      fileName = helpers.SanitizeFileName (filepath.Base file.Filename) := by
  unfold controllers.UploadImage controllers.FormFile at h
  cases hf : req.formFile with
  | error e => rw [hf] at h; simp at h
  | ok file =>
    rw [hf] at h
    cases ho : req.formOpenError with
    | some e => rw [ho] at h; simp at h
    | none =>
      rw [ho] at h
      simp only [List.cons_append, List.nil_append, List.mem_cons, reduceCtorEq,
        false_or] at h
      obtain ⟨hn, hname⟩ :=
        uploadChecked_uploadFile_name caseTable mongoService req store file fileName
          metadata h
      exact ⟨file, rfl, hn, hname⟩

/-- C11. The validator accepts exactly the non-empty fixed points of the sanitizer:
`HasValidFileName(name)` is true if and only if `name` is non-empty and
`SanitizeFileName(name) == name`.  So on the upload path every call of
`MongoService.UploadFile` passes, as file name, the validated base name of the uploaded
file itself (the sanitizer changes nothing there); the PNG request of the demo makes such
a call with `photo_01.png`. -/
theorem HasValidFileName_fixed_points :
    (∀ name : GoString, helpers.HasValidFileName name = true ↔
      name ≠ [] ∧ helpers.SanitizeFileName name = name) ∧
    (∀ (σ : Type) (caseTable : Nat → Nat) (mongoService : services.MongoService σ)
      (req : controllers.UploadRequest) (store : σ) (fileName : GoString)
      (metadata : Document),
      controllers.Effect.uploadFile fileName metadata
        ∈ (controllers.UploadImage caseTable mongoService req store).1 →
      ∃ file, req.formFile = .ok file ∧
        helpers.HasValidFileName (filepath.Base file.Filename) = true ∧
        fileName = filepath.Base file.Filename) ∧
    (∃ metadata, controllers.Effect.uploadFile (goString "photo_01.png") metadata
      ∈ (controllers.UploadImage id demoService demoAccepted demoStore).1) := by
  refine ⟨HasValidFileName_iff_fixed, ?_, ?_⟩
  · intro σ caseTable mongoService req store fileName metadata h
    obtain ⟨file, hf, hn, hname⟩ :=
      UploadImage_uploadFile_name caseTable mongoService req store fileName metadata h
    refine ⟨file, hf, hn, ?_⟩
    rw [hname]
    exact ((HasValidFileName_iff_fixed _).mp hn).2
  · refine ⟨[ (goString "contentType", Value.string (goString "image/png")),
        (goString "originalFileName", Value.string (goString "photo_01.png")),
        (goString "uploadedBy", Value.string (goString "anonymous")),
        (goString "uploadDate", Value.time 1900) ], ?_⟩
    decide

end FaceDetector
